import Mathlib

/-!
Verification of the structured-record mapping adapter
(`tp/dcc/abstract/dataclass.py`, class `ADataClass`).

The adapter wraps a Python dataclass: a fixed, ordered schema of declared
field names, an instance dictionary holding one value per declared field
plus any dynamically attached attributes, and the usual `Mapping` protocol
implemented on top of `getattr`/`setattr`.

Shallow embedding choices:
* A record instance is a `Schema` (class name, module name, declared field
  names in declaration order), a list of field values parallel to the
  declared names, an association list of dynamically attached non-field
  attributes (Python `setattr` with an undeclared name adds an entry to the
  instance `__dict__`), and a natural number modelling the Python object
  identity (`is` comparison).
* Python values are an inductive `Value`: flat values (`vnat`, `vstr`),
  plain dictionaries (`vdict`), and objects that implement a
  `__getstate__` hook (`vobj`, carrying the dictionary that the hook
  returns).  Only `vobj` satisfies `hasattr(value, SGETSTATE)`; this models
  the Python versions targeted by the source, where plain ints, strings and
  dicts have no `__getstate__` attribute.
* Fallible operations (`__getitem__`, `__setitem__`, `get`) return
  `Except PyErr`, mirroring `AttributeError` (UnknownField),
  `IndexError` (IndexOutOfRange) and `TypeError` (InvalidKeyType).
-/

namespace ADataClass

/-- A Python value, as far as the adapter observes it. -/
inductive Value where
  | vnat : Nat → Value
  | vstr : String → Value
  | vdict : List (String × Value) → Value
  | vobj : List (String × Value) → Value

/-- The static schema of a concrete dataclass: its class name, its module
name and its declared field names in declaration order
(`dataclasses.fields`). -/
structure Schema where
  className : String
  moduleName : String
  fieldNames : List String
  deriving DecidableEq, Repr

/-- A record instance: the schema of its concrete type, the current values
of the declared fields (parallel to `Schema.fieldNames`), the dynamically
attached non-field attributes of its `__dict__`, and its object identity. -/
structure Instance where
  schema : Schema
  fieldVals : List Value
  extras : List (String × Value)
  objId : Nat

/-- Well-formedness: one stored value per declared field, and declared
field names are distinct (guaranteed by the Python dataclass machinery). -/
def wf (inst : Instance) : Prop :=
  inst.fieldVals.length = inst.schema.fieldNames.length ∧
    inst.schema.fieldNames.Nodup

instance (inst : Instance) : Decidable (wf inst) := by
  unfold wf; infer_instance

/-- Errors the adapter can raise. -/
inductive PyErr where
  | attributeError : String → PyErr
  | indexError : PyErr
  | typeError : PyErr
  deriving DecidableEq, Repr

/-- A key passed to `__getitem__` / `__setitem__` / `get`: a field name or
a position index. -/
inductive Key where
  | s : String → Key
  | i : Int → Key
  deriving DecidableEq, Repr

/-- Dictionary lookup on an association list (Python `dict` access). -/
def dlookup : List (String × Value) → String → Option Value
  | [], _ => none
  | (k0, v0) :: rest, k => if k0 = k then some v0 else dlookup rest k

/-- Dictionary assignment on an association list (`d[k] = v`): overwrite
the existing entry or append a new one. -/
def dinsert : List (String × Value) → String → Value → List (String × Value)
  | [], k, v => [(k, v)]
  | (k0, v0) :: rest, k, v =>
      if k0 = k then (k, v) :: rest else (k0, v0) :: dinsert rest k v

/-- Index of the first occurrence of a name in a list of names. -/
def fidx : List String → String → Option Nat
  | [], _ => none
  | n :: rest, name => if n = name then some 0 else (fidx rest name).map (· + 1)

/-- Python `getattr(self, name)` restricted to what the adapter stores: a
declared field value, or a dynamically attached attribute; `none` models
`AttributeError`. -/
def getattrOpt (inst : Instance) (name : String) : Option Value :=
  match fidx inst.schema.fieldNames name with
  | some i => inst.fieldVals[i]?
  | none => dlookup inst.extras name

/-- Python `setattr(self, name, value)`: overwrite a declared field, or
silently attach (or overwrite) a non-field attribute.  It never fails. -/
def setattrF (inst : Instance) (name : String) (v : Value) : Instance :=
  match fidx inst.schema.fieldNames name with
  | some i => { inst with fieldVals := inst.fieldVals.set i v }
  | none => { inst with extras := dinsert inst.extras name v }

/-- `__len__`: `len(list(self.fields()))`, the number of declared fields. -/
def lenOf (inst : Instance) : Nat :=
  inst.schema.fieldNames.length

/-- `keys()`: the declared field names in declaration order. -/
def keys (inst : Instance) : List String :=
  inst.schema.fieldNames

/-- `values()`: `getattr(self, key)` for each key. -/
def values (inst : Instance) : List Value :=
  (keys inst).filterMap (getattrOpt inst)

/-- `items()`: `(key, getattr(self, key))` for each key. -/
def items (inst : Instance) : List (String × Value) :=
  (keys inst).filterMap (fun k => (getattrOpt inst k).map (fun v => (k, v)))

/-- `__contains__`: membership in the key set. -/
def containsF (inst : Instance) (name : String) : Bool :=
  inst.schema.fieldNames.contains name

/-- `__eq__`: `self is other` — object identity, never structural. -/
def eqPy (a b : Instance) : Bool :=
  a.objId == b.objId

/-- `__ne__`: `self is not other`. -/
def nePy (a b : Instance) : Bool :=
  !(a.objId == b.objId)

/-- `__getitem__(key)`: a string key goes through `getattr` (raising
`AttributeError` when the attribute does not exist); an int key is checked
against `[0, num_data_fields)` and out-of-range indices raise
`IndexError`. -/
def getitem (inst : Instance) (key : Key) : Except PyErr Value :=
  match key with
  | .s name =>
      match getattrOpt inst name with
      | some v => .ok v
      | none => .error (.attributeError name)
  | .i k =>
      let n : Int := (inst.schema.fieldNames.length : Int)
      if 0 ≤ k ∧ k < n then
        match inst.schema.fieldNames[k.toNat]? with
        | some name =>
            match getattrOpt inst name with
            | some v => .ok v
            | none => .error (.attributeError name)
        | none => .error .indexError
      else .error .indexError

/-- `__setitem__(key, value)`: a string key goes through `setattr`
(which never fails); an int key is bounds-checked like `__getitem__`. -/
def setitem (inst : Instance) (key : Key) (v : Value) : Except PyErr Instance :=
  match key with
  | .s name => .ok (setattrF inst name v)
  | .i k =>
      let n : Int := (inst.schema.fieldNames.length : Int)
      if 0 ≤ k ∧ k < n then
        match inst.schema.fieldNames[k.toNat]? with
        | some name => .ok (setattrF inst name v)
        | none => .error .indexError
      else .error .indexError

/-- `get(key, default)`: the source body is `getattr(self, key, default)`.
With a string key this returns the attribute when present and `default`
otherwise; with an int key Python `getattr` raises `TypeError` before the
default is considered. -/
def get (inst : Instance) (key : Key) (default : Value) : Except PyErr Value :=
  match key with
  | .s name => .ok ((getattrOpt inst name).getD default)
  | .i _ => .error .typeError

/-- `update(obj)`: `setattr(self, key, value)` for each pair of the given
mapping, in iteration order.  It never fails. -/
def update (inst : Instance) (obj : List (String × Value)) : Instance :=
  obj.foldl (fun acc kv => setattrF acc kv.1 kv.2) inst

/-- Does the value have a `__getstate__` attribute
(`hasattr(value, SGETSTATE)`)?  Only `vobj` values do. -/
def hasGetstate : Value → Bool
  | .vobj _ => true
  | _ => false

/-- Calling `value.__getstate__()` on a value that has the hook returns its
state dictionary; on any other value this is never reached by the source. -/
def callGetstate : Value → Value
  | .vobj d => .vdict d
  | v => v

/-- The reserved key holding the class name in an exported state. -/
def SNAME : String := "__name__"

/-- The reserved key holding the module name in an exported state. -/
def SMODULE : String := "__module__"

/-- `__getstate__()`: a dictionary seeded with the two reserved entries,
then, for each `(key, value)` of `items()`, an entry is added only when
`hasattr(value, SGETSTATE)` holds; the stored value is the inner ternary of
the source (whose `else` branch is unreachable under the outer guard). -/
def getstate (inst : Instance) : List (String × Value) :=
  (items inst).foldl
    (fun st kv =>
      if hasGetstate kv.2 then
        dinsert st kv.1 (if hasGetstate kv.2 then callGetstate kv.2 else kv.2)
      else st)
    [(SNAME, .vstr inst.schema.className), (SMODULE, .vstr inst.schema.moduleName)]

/-- `__setstate__(state)`: `self.update(state)` on the whole state,
reserved entries included. -/
def setstate (inst : Instance) (state : List (String × Value)) : Instance :=
  update inst state

/-- `dataclasses.replace(self)`: a fresh instance of the same concrete type
constructed from the current declared-field values; dynamically attached
attributes are not carried over, and the new object has its own identity. -/
def replace (inst : Instance) (freshId : Nat) : Instance :=
  { schema := inst.schema, fieldVals := inst.fieldVals, extras := [], objId := freshId }

/-- `copy(**kwargs)`: `dataclasses.replace(self)` followed by
`copy.update(kwargs)`; the receiver itself is never written to (in this
state-passing embedding it is left untouched and only the new instance is
returned). -/
def copy (inst : Instance) (kwargs : List (String × Value)) (freshId : Nat) : Instance :=
  update (replace inst freshId) kwargs

/-- A mutating operation of the adapter, for invariant claims quantifying
over arbitrary operation sequences.  A failing `__setitem__` raises before
any assignment, leaving the instance unchanged. -/
inductive Op where
  | updateOp : List (String × Value) → Op
  | setitemOp : Key → Value → Op
  | setstateOp : List (String × Value) → Op

/-- Apply one mutating operation to an instance. -/
def applyOp (inst : Instance) : Op → Instance
  | .updateOp m => update inst m
  | .setitemOp k v =>
      match setitem inst k v with
      | .ok r => r
      | .error _ => inst
  | .setstateOp st => setstate inst st

/-- Apply a sequence of mutating operations, left to right. -/
def applyOps (inst : Instance) (ops : List Op) : Instance :=
  ops.foldl applyOp inst

/-! ### Helper lemmas about dictionaries and name lookup -/

theorem dlookup_dinsert_self (st : List (String × Value)) (k : String) (v : Value) :
    dlookup (dinsert st k v) k = some v := by
  induction st with
  | nil => simp [dinsert, dlookup]
  | cons hd tl ih =>
      by_cases h : hd.1 = k
      · simp [dinsert, dlookup, h]
      · simp [dinsert, dlookup, h, ih]

theorem dlookup_dinsert_other (st : List (String × Value)) (k k2 : String) (v : Value)
    (h : k ≠ k2) : dlookup (dinsert st k v) k2 = dlookup st k2 := by
  induction st with
  | nil => simp [dinsert, dlookup, h]
  | cons hd tl ih =>
      by_cases h0 : hd.1 = k
      · simp [dinsert, dlookup, h0, h]
      · by_cases h1 : hd.1 = k2
        · simp [dinsert, dlookup, h0, h1, Ne.symm h]
        · simp [dinsert, dlookup, h0, h1, ih]

theorem fidx_lt {l : List String} {x : String} {i : Nat} (h : fidx l x = some i) :
    i < l.length := by
  induction l generalizing i with
  | nil => simp [fidx] at h
  | cons hd tl ih =>
      by_cases h0 : hd = x
      · simp [fidx, h0] at h
        subst h
        simp
      · simp [fidx, h0] at h
        obtain ⟨j, hj, rfl⟩ := h
        have := ih hj
        simp
        omega

theorem fidx_get {l : List String} {x : String} {i : Nat} (h : fidx l x = some i) :
    l[i]? = some x := by
  induction l generalizing i with
  | nil => simp [fidx] at h
  | cons hd tl ih =>
      by_cases h0 : hd = x
      · simp [fidx, h0] at h
        subst h
        simp [h0]
      · simp [fidx, h0] at h
        obtain ⟨j, hj, rfl⟩ := h
        simpa using ih hj

theorem fidx_eq_none {l : List String} {x : String} : fidx l x = none ↔ x ∉ l := by
  induction l with
  | nil => simp [fidx]
  | cons hd tl ih =>
      by_cases h0 : hd = x
      · simp [fidx, h0]
      · simp [fidx, h0, ih]
        intro h
        exact fun he => h0 he.symm

theorem fidx_of_mem {l : List String} {x : String} (h : x ∈ l) :
    ∃ i, fidx l x = some i := by
  rcases he : fidx l x with _ | i
  · exact absurd h (fidx_eq_none.mp he)
  · exact ⟨i, rfl⟩

theorem fidx_nodup_get {l : List String} {j : Nat} {x : String}
    (hnd : l.Nodup) (h : l[j]? = some x) : fidx l x = some j := by
  induction l generalizing j with
  | nil => simp at h
  | cons hd tl ih =>
      rcases j with _ | j
      · simp at h
        simp [fidx, h]
      · simp at h
        have hne : hd ≠ x := by
          intro he
          subst he
          exact (List.nodup_cons.mp hnd).1 (List.getElem?_mem h)
        simp [fidx, hne, ih (List.nodup_cons.mp hnd).2 h]

/-! ### Helper lemmas about attribute access -/

theorem setattrF_schema (inst : Instance) (n : String) (v : Value) :
    (setattrF inst n v).schema = inst.schema := by
  unfold setattrF
  rcases fidx inst.schema.fieldNames n with _ | i <;> rfl

theorem setattrF_objId (inst : Instance) (n : String) (v : Value) :
    (setattrF inst n v).objId = inst.objId := by
  unfold setattrF
  rcases fidx inst.schema.fieldNames n with _ | i <;> rfl

theorem setattrF_wf {inst : Instance} (h : wf inst) (n : String) (v : Value) :
    wf (setattrF inst n v) := by
  unfold setattrF
  rcases fidx inst.schema.fieldNames n with _ | i
  · exact h
  · exact ⟨by simpa using h.1, h.2⟩

theorem getattrOpt_setattrF_self {inst : Instance} (h : wf inst) (n : String) (v : Value) :
    getattrOpt (setattrF inst n v) n = some v := by
  unfold getattrOpt setattrF
  rcases he : fidx inst.schema.fieldNames n with _ | i
  · simp [he, dlookup_dinsert_self]
  · have hlt : i < inst.fieldVals.length := by
      rw [h.1]
      exact fidx_lt he
    simp [he, List.getElem?_set_eq_of_lt _ hlt]

theorem getattrOpt_setattrF_other (inst : Instance) {n m : String} (hnm : n ≠ m) (v : Value) :
    getattrOpt (setattrF inst n v) m = getattrOpt inst m := by
  unfold getattrOpt setattrF
  rcases he : fidx inst.schema.fieldNames n with _ | i
  · rcases hm : fidx inst.schema.fieldNames m with _ | j
    · simp [he, hm, dlookup_dinsert_other _ _ _ _ hnm]
    · simp [he, hm]
  · rcases hm : fidx inst.schema.fieldNames m with _ | j
    · simp [he, hm]
    · have hij : i ≠ j := by
        intro hij
        subst hij
        have h1 := fidx_get he
        have h2 := fidx_get hm
        rw [h1] at h2
        exact hnm (Option.some.inj h2)
      simp [he, hm, List.getElem?_set_ne hij]

/-! ### Helper lemmas about `update` -/

theorem update_schema (inst : Instance) (obj : List (String × Value)) :
    (update inst obj).schema = inst.schema := by
  induction obj generalizing inst with
  | nil => rfl
  | cons hd tl ih =>
      rw [show update inst (hd :: tl) = update (setattrF inst hd.1 hd.2) tl from rfl,
        ih, setattrF_schema]

theorem update_objId (inst : Instance) (obj : List (String × Value)) :
    (update inst obj).objId = inst.objId := by
  induction obj generalizing inst with
  | nil => rfl
  | cons hd tl ih =>
      rw [show update inst (hd :: tl) = update (setattrF inst hd.1 hd.2) tl from rfl,
        ih, setattrF_objId]

theorem update_wf {inst : Instance} (h : wf inst) (obj : List (String × Value)) :
    wf (update inst obj) := by
  induction obj generalizing inst with
  | nil => exact h
  | cons hd tl ih =>
      rw [show update inst (hd :: tl) = update (setattrF inst hd.1 hd.2) tl from rfl]
      exact ih (setattrF_wf h hd.1 hd.2)

theorem getattrOpt_update_not_mem (inst : Instance) {obj : List (String × Value)}
    {name : String} (h : name ∉ obj.map Prod.fst) :
    getattrOpt (update inst obj) name = getattrOpt inst name := by
  induction obj generalizing inst with
  | nil => rfl
  | cons hd tl ih =>
      simp only [List.map_cons, List.mem_cons, not_or] at h
      rw [show update inst (hd :: tl) = update (setattrF inst hd.1 hd.2) tl from rfl,
        ih _ h.2, getattrOpt_setattrF_other inst (fun he => h.1 he.symm) hd.2]

theorem getattrOpt_update_mem {inst : Instance} (hwf : wf inst)
    {obj : List (String × Value)} (hnd : (obj.map Prod.fst).Nodup)
    {k : String} {v : Value} (hmem : (k, v) ∈ obj) :
    getattrOpt (update inst obj) k = some v := by
  induction obj generalizing inst with
  | nil => simp at hmem
  | cons hd tl ih =>
      simp only [List.map_cons, List.nodup_cons] at hnd
      rw [show update inst (hd :: tl) = update (setattrF inst hd.1 hd.2) tl from rfl]
      rcases List.mem_cons.mp hmem with heq | htl
      · have hk : k = hd.1 := congrArg Prod.fst heq
        have hv : v = hd.2 := congrArg Prod.snd heq
        subst hk
        subst hv
        rw [getattrOpt_update_not_mem _ hnd.1]
        exact getattrOpt_setattrF_self hwf _ _
      · exact ih (setattrF_wf hwf hd.1 hd.2) hnd.2 htl

/-! ### Helper lemmas about `__setitem__`, `replace`, `copy` and op sequences -/

theorem replace_wf {inst : Instance} (h : wf inst) (fid : Nat) :
    wf (replace inst fid) :=
  ⟨h.1, h.2⟩

theorem setitem_ok_schema {inst : Instance} {k : Key} {v : Value} {r : Instance}
    (h : setitem inst k v = Except.ok r) : r.schema = inst.schema := by
  cases k with
  | s name =>
      simp only [setitem] at h
      injection h with h
      rw [← h, setattrF_schema]
  | i j =>
      simp only [setitem] at h
      split at h
      · split at h
        · injection h with h
          rw [← h, setattrF_schema]
        · exact absurd h (by simp)
      · exact absurd h (by simp)

theorem setitem_ok_wf {inst : Instance} (hwf : wf inst) {k : Key} {v : Value} {r : Instance}
    (h : setitem inst k v = Except.ok r) : wf r := by
  cases k with
  | s name =>
      simp only [setitem] at h
      injection h with h
      rw [← h]
      exact setattrF_wf hwf name v
  | i j =>
      simp only [setitem] at h
      split at h
      · split at h
        · injection h with h
          rw [← h]
          exact setattrF_wf hwf _ v
        · exact absurd h (by simp)
      · exact absurd h (by simp)

theorem applyOp_schema (inst : Instance) (op : Op) :
    (applyOp inst op).schema = inst.schema := by
  cases op with
  | updateOp m => exact update_schema inst m
  | setstateOp st => exact update_schema inst st
  | setitemOp k v =>
      simp only [applyOp]
      rcases h : setitem inst k v with e | r
      · rfl
      · exact setitem_ok_schema h

theorem applyOp_wf {inst : Instance} (hwf : wf inst) (op : Op) :
    wf (applyOp inst op) := by
  cases op with
  | updateOp m => exact update_wf hwf m
  | setstateOp st => exact update_wf hwf st
  | setitemOp k v =>
      simp only [applyOp]
      rcases h : setitem inst k v with e | r
      · exact hwf
      · exact setitem_ok_wf hwf h

theorem applyOps_schema (inst : Instance) (ops : List Op) :
    (applyOps inst ops).schema = inst.schema := by
  induction ops generalizing inst with
  | nil => rfl
  | cons hd tl ih =>
      rw [show applyOps inst (hd :: tl) = applyOps (applyOp inst hd) tl from rfl,
        ih, applyOp_schema]

theorem applyOps_wf {inst : Instance} (hwf : wf inst) (ops : List Op) :
    wf (applyOps inst ops) := by
  induction ops generalizing inst with
  | nil => exact hwf
  | cons hd tl ih =>
      rw [show applyOps inst (hd :: tl) = applyOps (applyOp inst hd) tl from rfl]
      exact ih (applyOp_wf hwf hd)

/-! ### Helper lemmas about iteration -/

theorem getattrOpt_of_mem_keys {inst : Instance} (hwf : wf inst) {k : String}
    (hk : k ∈ inst.schema.fieldNames) : ∃ v, getattrOpt inst k = some v := by
  obtain ⟨i, hi⟩ := fidx_of_mem hk
  have hlt : i < inst.fieldVals.length := by
    rw [hwf.1]
    exact fidx_lt hi
  refine ⟨inst.fieldVals[i], ?_⟩
  unfold getattrOpt
  rw [hi]
  exact List.getElem?_eq_getElem hlt

theorem items_map_fst {inst : Instance} (hwf : wf inst) :
    (items inst).map Prod.fst = inst.schema.fieldNames := by
  unfold items
  have hgen : ∀ l : List String, (∀ k ∈ l, ∃ v, getattrOpt inst k = some v) →
      (l.filterMap (fun k => (getattrOpt inst k).map (fun v => (k, v)))).map Prod.fst = l := by
    intro l
    induction l with
    | nil => intro _; rfl
    | cons hd tl ih =>
        intro hall
        obtain ⟨v, hv⟩ := hall hd (by simp)
        simp only [List.filterMap_cons, hv, Option.map_some', List.map_cons, List.cons.injEq,
          true_and]
        exact ih (fun k hk => hall k (by simp [hk]))
  exact hgen inst.schema.fieldNames (fun k hk => getattrOpt_of_mem_keys hwf hk)

/-! ### Concrete instances used by witnesses and counterexamples -/

/-- Schema of a small concrete record type `Point` with declared fields
`x` and `y`, in that declaration order. -/
def pointSchema : Schema :=
  { className := "Point", moduleName := "tp.test.point", fieldNames := ["x", "y"] }

/-- A default-constructed `Point` (both fields zero). -/
def pt0 : Instance :=
  { schema := pointSchema, fieldVals := [.vnat 0, .vnat 0], extras := [], objId := 0 }

/-- A `Point` with `x = 1`, `y = 2`. -/
def pt1 : Instance :=
  { schema := pointSchema, fieldVals := [.vnat 1, .vnat 2], extras := [], objId := 1 }

/-- A `Point` with the same field values as `pt1` but a different object
identity. -/
def pt2 : Instance :=
  { schema := pointSchema, fieldVals := [.vnat 1, .vnat 2], extras := [], objId := 2 }

/-! ### C1 — `update` and undeclared keys -/

/-- C1 counterexample: `update` with the undeclared key `unknown_field`
does not fail with `UnknownField`; the pair is silently attached to the
instance as a new non-field attribute (before the call the attribute does
not exist, after the call it holds the assigned value), refuting the
claim that the call fails at such a pair. -/
theorem update_unknown_key_silently_attaches :
    getattrOpt pt0 "unknown_field" = none ∧
    getattrOpt (update pt0 [("unknown_field", .vnat 1)]) "unknown_field" = some (.vnat 1) ∧
    "unknown_field" ∉ pt0.schema.fieldNames := by
  refine ⟨rfl, rfl, ?_⟩
  decide

/-- C1 (amended): for every record instance and every source mapping,
`update` assigns each `(key, value)` pair in the mapping's iteration order
and never fails: a pair whose key names a declared field overwrites that
field, a pair whose key is undeclared is silently attached as a new
non-field attribute (the schema is unchanged), and every assignment made
for the other pairs remains applied. -/
theorem update_assigns_pairs_no_failure (inst : Instance) (obj : List (String × Value))
    (hwf : wf inst) (hnd : (obj.map Prod.fst).Nodup) :
    (∀ kv ∈ obj, getattrOpt (update inst obj) kv.1 = some kv.2) ∧
    (∀ name, name ∉ obj.map Prod.fst →
      getattrOpt (update inst obj) name = getattrOpt inst name) ∧
    (update inst obj).schema = inst.schema := by
  refine ⟨?_, ?_, update_schema inst obj⟩
  · intro kv hkv
    exact getattrOpt_update_mem hwf hnd hkv
  · intro name h
    exact getattrOpt_update_not_mem inst h

/-- C1 witness: the amended statement at a concrete instance and mapping. -/
theorem update_assigns_pairs_no_failure_witness :
    getattrOpt (update pt0 [("x", .vnat 5), ("unknown_field", .vnat 1)]) "x" = some (.vnat 5) := by
  have h := update_assigns_pairs_no_failure pt0 [("x", .vnat 5), ("unknown_field", .vnat 1)]
    (by decide) (by decide)
  exact h.1 ("x", .vnat 5) (List.mem_cons_self _ _)

/-! ### C2 — `__getstate__` and flat field values -/

/-- C2: the claim is right and the code is wrong.  At a record whose field
values are flat (no `__getstate__` hook), the source's outer
`hasattr(value, SGETSTATE)` guard drops every field entry from the exported
state — only the two reserved keys survive — although the unreachable
`else value` branch of the inner ternary shows the raw value was meant to
be stored. -/
theorem getstate_drops_flat_fields :
    getstate pt1 = [(SNAME, .vstr "Point"), (SMODULE, .vstr "tp.test.point")] ∧
    dlookup (getstate pt1) "x" = none ∧
    getattrOpt pt1 "x" = some (.vnat 1) :=
  ⟨rfl, rfl, rfl⟩

/-! ### C3 — round-trip through export and import -/

/-- C3: the claim is right and the code is wrong.  Because `__getstate__`
drops flat field entries, `import_state(export_state(original))` applied to
a fresh default instance leaves the default field values in place:
the round-tripped `items()` sequence differs from the original's. -/
theorem roundtrip_fails_on_flat_values :
    items (setstate pt0 (getstate pt1)) = [("x", .vnat 0), ("y", .vnat 0)] ∧
    items pt1 = [("x", .vnat 1), ("y", .vnat 2)] ∧
    items (setstate pt0 (getstate pt1)) ≠ items pt1 := by
  refine ⟨rfl, rfl, ?_⟩
  intro h
  rw [show items (setstate pt0 (getstate pt1)) = [("x", Value.vnat 0), ("y", Value.vnat 0)]
    from rfl] at h
  rw [show items pt1 = [("x", Value.vnat 1), ("y", Value.vnat 2)] from rfl] at h
  simp at h

/-! ### C4 — `get` (get_by_key) -/

/-- C4 counterexample: `get` does not accept a field position index.  At
position `0` — a valid field position, as `__getitem__` shows — `get`
fails with `TypeError` instead of returning the corresponding field value,
refuting the claim that `get_by_key` accepts either a name or an index. -/
theorem get_with_index_key_raises_type_error :
    get pt1 (Key.i 0) (.vnat 42) = .error .typeError ∧
    getitem pt1 (Key.i 0) = .ok (.vnat 1) :=
  ⟨rfl, rfl⟩

/-- C4 (amended): `get` accepts only a string name as the key: for a
declared field name it returns the field's current value, for a name that
is neither declared nor dynamically attached it returns the caller-supplied
default and never raises, and for an index key it fails with
`InvalidKeyType` (the underlying attribute lookup requires a string). -/
theorem get_by_key_amended (inst : Instance) (name : String) (d : Value) (hwf : wf inst) :
    (name ∈ inst.schema.fieldNames →
      ∃ v, getattrOpt inst name = some v ∧ get inst (Key.s name) d = .ok v) ∧
    (name ∉ inst.schema.fieldNames → dlookup inst.extras name = none →
      get inst (Key.s name) d = .ok d) ∧
    (∀ k : Int, get inst (Key.i k) d = .error .typeError) := by
  refine ⟨?_, ?_, fun k => rfl⟩
  · intro hmem
    obtain ⟨v, hv⟩ := getattrOpt_of_mem_keys hwf hmem
    exact ⟨v, hv, by simp [get, hv]⟩
  · intro hnm hext
    simp [get, getattrOpt, fidx_eq_none.mpr hnm, hext]

/-- C4 witness: the amended statement at a concrete instance. -/
theorem get_by_key_amended_witness :
    get pt1 (Key.s "x") (.vnat 42) = .ok (.vnat 1) ∧
    get pt1 (Key.s "nonexistent") (.vnat 42) = .ok (.vnat 42) ∧
    get pt1 (Key.i 3) (.vnat 42) = .error .typeError := by
  have h := get_by_key_amended pt1 "x" (.vnat 42) (by decide)
  have h2 := get_by_key_amended pt1 "nonexistent" (.vnat 42) (by decide)
  refine ⟨?_, h2.2.1 (by decide) rfl, h.2.2 3⟩
  obtain ⟨v, hv, hg⟩ := h.1 (by decide)
  have hveq : v = Value.vnat 1 :=
    Option.some.inj (hv.symm.trans (show getattrOpt pt1 "x" = some (Value.vnat 1) from rfl))
  rw [hveq] at hg
  exact hg

/-! ### C5 — `__setstate__` and the reserved keys -/

/-- C5 counterexample: `__setstate__` assigns the reserved keys onto the
instance as well.  Before the call the instance has no `__name__`
attribute; after importing a state that carries the reserved entries, the
`__name__` entry has been attached to the instance, refuting the claim
that the reserved entries are not assigned by this hook. -/
theorem setstate_assigns_reserved_keys :
    getattrOpt pt0 SNAME = none ∧
    getattrOpt (setstate pt0 [(SNAME, .vstr "Point"), (SMODULE, .vstr "m"), ("x", .vnat 5)])
      SNAME = some (.vstr "Point") :=
  ⟨rfl, rfl⟩

/-- C5 (amended): `import_state(state)` assigns onto the instance, via
`update`, every entry of the supplied state mapping — the reserved
type-identifying entries included (when not declared fields they are
attached as non-field attributes). -/
theorem setstate_assigns_all_entries (inst : Instance) (state : List (String × Value))
    (hwf : wf inst) (hnd : (state.map Prod.fst).Nodup) :
    setstate inst state = update inst state ∧
    (∀ kv ∈ state, getattrOpt (setstate inst state) kv.1 = some kv.2) :=
  ⟨rfl, fun _ hkv => getattrOpt_update_mem hwf hnd hkv⟩

/-- C5 witness: the amended statement at a concrete instance and state. -/
theorem setstate_assigns_all_entries_witness :
    getattrOpt (setstate pt0 [(SNAME, .vstr "A"), ("x", .vnat 9)]) SNAME = some (.vstr "A") := by
  have h := setstate_assigns_all_entries pt0 [(SNAME, .vstr "A"), ("x", .vnat 9)]
    (by decide) (by decide)
  exact h.2 (SNAME, .vstr "A") (List.mem_cons_self _ _)

/-! ### C6 — `__getitem__` with a string key (get_by_name) -/

/-- C6 counterexample: after `update` attaches the undeclared name `foo`,
`__getitem__` with the string key `foo` returns the attached value instead
of failing, refuting the claim that the lookup fails with `UnknownField`
whenever the name is not a declared field. -/
theorem getitem_returns_attached_attribute :
    "foo" ∉ pt0.schema.fieldNames ∧
    getitem (update pt0 [("foo", .vnat 7)]) (Key.s "foo") = .ok (.vnat 7) := by
  refine ⟨?_, rfl⟩
  decide

/-- C6 (amended): `__getitem__` with a string key returns the declared
field's current value when the name is declared; when the name is not
declared it fails with `UnknownField`, unless the name was dynamically
attached to the instance, in which case the attached value is returned. -/
theorem get_by_name_amended (inst : Instance) (name : String) (hwf : wf inst) :
    (name ∈ inst.schema.fieldNames →
      ∃ v, getattrOpt inst name = some v ∧ getitem inst (Key.s name) = .ok v) ∧
    (name ∉ inst.schema.fieldNames → dlookup inst.extras name = none →
      getitem inst (Key.s name) = .error (.attributeError name)) ∧
    (∀ v, name ∉ inst.schema.fieldNames → dlookup inst.extras name = some v →
      getitem inst (Key.s name) = .ok v) := by
  refine ⟨?_, ?_, ?_⟩
  · intro hmem
    obtain ⟨v, hv⟩ := getattrOpt_of_mem_keys hwf hmem
    exact ⟨v, hv, by simp [getitem, hv]⟩
  · intro hnm hext
    simp [getitem, getattrOpt, fidx_eq_none.mpr hnm, hext]
  · intro v hnm hext
    simp [getitem, getattrOpt, fidx_eq_none.mpr hnm, hext]

/-- C6 witness: the amended statement at a concrete instance. -/
theorem get_by_name_amended_witness :
    getitem pt1 (Key.s "y") = .ok (.vnat 2) ∧
    getitem pt1 (Key.s "nonexistent") = .error (.attributeError "nonexistent") := by
  have h := get_by_name_amended pt1 "y" (by decide)
  have h2 := get_by_name_amended pt1 "nonexistent" (by decide)
  refine ⟨?_, h2.2.1 (by decide) rfl⟩
  obtain ⟨v, hv, hg⟩ := h.1 (by decide)
  have hveq : v = Value.vnat 2 :=
    Option.some.inj (hv.symm.trans (show getattrOpt pt1 "y" = some (Value.vnat 2) from rfl))
  rw [hveq] at hg
  exact hg

/-! ### C7 — identity-based equality -/

/-- C7: `__eq__` is true exactly when the two operands are the very same
object (identity comparison) — in particular it is false for structurally
identical instances with distinct identities, so it is never a structural
comparison of field values — and `__ne__` is its exact negation. -/
theorem eq_is_identity_ne_is_negation (a b : Instance) :
    (eqPy a b = true ↔ a.objId = b.objId) ∧
    (nePy a b = !eqPy a b) ∧
    (a.schema = b.schema → a.fieldVals = b.fieldVals → a.objId ≠ b.objId →
      eqPy a b = false) := by
  refine ⟨?_, rfl, ?_⟩
  · simp [eqPy]
  · intro _ _ hne
    simp [eqPy]
    exact hne

/-- C7 witness: two structurally identical points with distinct identities
compare unequal, and an instance compares equal to itself. -/
theorem eq_is_identity_ne_is_negation_witness :
    eqPy pt1 pt2 = false ∧ nePy pt1 pt2 = true ∧ eqPy pt1 pt1 = true := by
  have h := eq_is_identity_ne_is_negation pt1 pt2
  have hself := eq_is_identity_ne_is_negation pt1 pt1
  have h1 : eqPy pt1 pt2 = false := h.2.2 rfl rfl (by decide)
  refine ⟨h1, ?_, hself.1.mpr rfl⟩
  rw [h.2.1, h1]
  rfl

/-! ### C8 — `copy` with overrides -/

/-- C8: `copy(overrides)` returns a new instance with its own identity
(so `__eq__` against the original is false), in which every key of the
overrides mapping holds its override value, every declared field not named
in the overrides holds the same value (by reference) as the original, and
the schema is that of the original.  In this state-passing embedding the
original instance is not written to by the call: only the new instance is
produced. -/
theorem copy_overrides_and_preserves (inst : Instance) (ov : List (String × Value)) (fid : Nat)
    (hwf : wf inst) (hnd : (ov.map Prod.fst).Nodup) (hfid : fid ≠ inst.objId) :
    eqPy (copy inst ov fid) inst = false ∧
    (∀ kv ∈ ov, getattrOpt (copy inst ov fid) kv.1 = some kv.2) ∧
    (∀ name ∈ inst.schema.fieldNames, name ∉ ov.map Prod.fst →
      getattrOpt (copy inst ov fid) name = getattrOpt inst name) ∧
    (copy inst ov fid).schema = inst.schema := by
  refine ⟨?_, ?_, ?_, ?_⟩
  · have hid : (copy inst ov fid).objId = fid := by
      unfold copy
      rw [update_objId]
      rfl
    simp [eqPy, hid]
    exact hfid
  · intro kv hkv
    exact getattrOpt_update_mem (replace_wf hwf fid) hnd hkv
  · intro name hmem hnov
    unfold copy
    rw [getattrOpt_update_not_mem _ hnov]
    obtain ⟨i, hi⟩ := fidx_of_mem hmem
    simp [getattrOpt, replace, hi]
  · unfold copy
    rw [update_schema]
    rfl

/-- C8 witness: copying with an override of `x` yields a distinct instance
with `x` overridden and `y` preserved. -/
theorem copy_overrides_and_preserves_witness :
    getattrOpt (copy pt1 [("x", .vnat 5)] 7) "x" = some (.vnat 5) ∧
    getattrOpt (copy pt1 [("x", .vnat 5)] 7) "y" = some (.vnat 2) ∧
    eqPy (copy pt1 [("x", .vnat 5)] 7) pt1 = false := by
  have h := copy_overrides_and_preserves pt1 [("x", .vnat 5)] 7 (by decide) (by decide) (by decide)
  refine ⟨h.2.1 ("x", .vnat 5) (List.mem_cons_self _ _), ?_, h.1⟩
  have hy := h.2.2.1 "y" (by decide) (by decide)
  exact hy.trans rfl

/-! ### C9 — bounds of position-based access -/

/-- C9: `__getitem__` with an index succeeds for every position in
`[0, field_count)` and returns the value of the field at that position in
declaration order; at index `field_count` and at index `-1` it fails with
`IndexOutOfRange` (no negative-index wraparound), and `__setitem__` fails
with `IndexOutOfRange` under the same out-of-bounds condition. -/
theorem index_access_bounds (inst : Instance) (v : Value) (hwf : wf inst) :
    (∀ (j : Nat) (w : Value), inst.fieldVals[j]? = some w →
      getitem inst (Key.i (j : Int)) = .ok w) ∧
    getitem inst (Key.i (lenOf inst : Int)) = .error .indexError ∧
    getitem inst (Key.i (-1)) = .error .indexError ∧
    (∀ k : Int, k < 0 ∨ (lenOf inst : Int) ≤ k →
      setitem inst (Key.i k) v = .error .indexError) := by
  refine ⟨?_, ?_, ?_, ?_⟩
  · intro j w hw
    have hjlt : j < inst.fieldVals.length := by
      by_contra hge
      rw [List.getElem?_eq_none (by omega)] at hw
      exact Option.noConfusion hw
    have hjn : j < inst.schema.fieldNames.length := by
      rw [← hwf.1]
      exact hjlt
    have hname : inst.schema.fieldNames[j]? = some inst.schema.fieldNames[j] :=
      List.getElem?_eq_getElem hjn
    have hfidx : fidx inst.schema.fieldNames inst.schema.fieldNames[j] = some j :=
      fidx_nodup_get hwf.2 hname
    have hcond : 0 ≤ (j : Int) ∧ (j : Int) < (inst.schema.fieldNames.length : Int) := by
      constructor
      · omega
      · omega
    simp only [getitem]
    rw [if_pos hcond]
    rw [show (j : Int).toNat = j from rfl, hname]
    simp [getattrOpt, hfidx, hw]
  · simp only [getitem, lenOf]
    rw [if_neg (by omega)]
  · simp only [getitem]
    rw [if_neg (by omega)]
  · intro k hk
    simp only [lenOf] at hk
    simp only [setitem]
    rw [if_neg (by omega)]

/-- C9 witness: the bounds at a concrete two-field instance. -/
theorem index_access_bounds_witness :
    getitem pt1 (Key.i 0) = .ok (.vnat 1) ∧
    getitem pt1 (Key.i 2) = .error .indexError ∧
    getitem pt1 (Key.i (-1)) = .error .indexError ∧
    setitem pt1 (Key.i 5) (.vnat 9) = .error .indexError := by
  have h := index_access_bounds pt1 (.vnat 9) (by decide)
  exact ⟨h.1 0 (.vnat 1) rfl, h.2.1, h.2.2.1, h.2.2.2 5 (by right; decide)⟩

/-! ### C10 — schema-derived observations are invariant -/

/-- C10: after any sequence of the adapter's mutating operations —
including `update` and `__setitem__` calls whose keys name no declared
field, which silently attach non-field attributes — `__len__`, `keys()`,
the key sequence of `items()`, and the position-to-name mapping of indexed
access are unchanged: they reflect exactly the statically declared fields
in declaration order. -/
theorem schema_observations_invariant (inst : Instance) (ops : List Op) (hwf : wf inst) :
    (applyOps inst ops).schema = inst.schema ∧
    lenOf (applyOps inst ops) = inst.schema.fieldNames.length ∧
    keys (applyOps inst ops) = inst.schema.fieldNames ∧
    (items (applyOps inst ops)).map Prod.fst = inst.schema.fieldNames ∧
    (∀ j : Nat, (applyOps inst ops).schema.fieldNames[j]? = inst.schema.fieldNames[j]?) := by
  have hs := applyOps_schema inst ops
  have hw := applyOps_wf hwf ops
  refine ⟨hs, ?_, ?_, ?_, fun j => by rw [hs]⟩
  · unfold lenOf
    rw [hs]
  · unfold keys
    rw [hs]
  · rw [items_map_fst hw, hs]

/-- C10 witness: an update attaching an unknown attribute and an indexed
write leave the key set and length of a concrete instance unchanged. -/
theorem schema_observations_invariant_witness :
    keys (applyOps pt0 [Op.updateOp [("unknown_field", .vnat 1)],
      Op.setitemOp (Key.s "zzz") (.vnat 2)]) = ["x", "y"] ∧
    lenOf (applyOps pt0 [Op.updateOp [("unknown_field", .vnat 1)],
      Op.setitemOp (Key.s "zzz") (.vnat 2)]) = 2 := by
  have h := schema_observations_invariant pt0 [Op.updateOp [("unknown_field", .vnat 1)],
    Op.setitemOp (Key.s "zzz") (.vnat 2)] (by decide)
  exact ⟨h.2.2.1.trans rfl, h.2.1.trans rfl⟩

end ADataClass
